import Mathlib

/-!
Verification development for the network-data augmentation and
component-labeling engine of the `kiara_plugin.network_analysis` package.

The Python source stores a graph as two columnar tables (nodes, edges).
We embed the tables as lists of records.  Machine integers are `Nat`,
SQL floating division is `Rat` division, nullable SQL values are
`Option`, and code that raises an exception is modelled as a function
into `Option` returning `none` on the raising path.

Embedded source functions (file `utils/__init__.py` unless noted):
  * `augment_edges_table_with_id_and_weights`
  * `augment_nodes_table_with_connection_counts`
  * `augment_tables_with_component_ids`
  * `NetworkData.create_network_data`, `NetworkData.from_filtered_nodes`
    and `NetworkGraphProperties.create_value_metadata`
    (`models/__init__.py`)
  * the no-nodes-table path of `AssembleGraphFromTablesModule.process`
    (`modules/create.py`)
  * `CutPointsList.process` (`modules/components.py`)

The repository's current `defaults.py` (defining the reserved
`_`-prefixed column-name constants) is not present under `src/`; per the
spec, computed columns use the reserved prefix `_` and user attribute
columns never do, which is how the record embedding below separates the
computed fields from the `attrs` payload.
-/

/-- A row of a raw nodes table handed to `create_network_data`:
the `_node_id` column, the `_label` column, and the remaining
(non-reserved, user-supplied) attribute columns as name/value pairs. -/
structure RawNode where
  nodeId : Nat
  label : String
  attrs : List (String × String)
deriving DecidableEq, Repr

/-- A row of a raw edges table handed to `create_network_data`:
the `_source` and `_target` columns (nullable node ids) and the
remaining attribute columns. -/
structure RawEdge where
  source : Option Nat
  target : Option Nat
  attrs : List (String × String)
deriving DecidableEq, Repr

/-- A row of the edges table after
`augment_edges_table_with_id_and_weights`: the computed columns
`_edge_id`, `_count_dup_directed`, `_idx_dup_directed`,
`_count_dup_undirected`, `_idx_dup_undirected` next to the original
source/target and the non-reserved attribute columns. -/
structure AugEdge where
  edgeId : Nat
  source : Option Nat
  target : Option Nat
  countDir : Nat
  idxDir : Nat
  countUndir : Nat
  idxUndir : Nat
  attrs : List (String × String)
deriving DecidableEq, Repr

/-- The reserved-prefix test `column_name.startswith("_")` separating
computed columns from user attribute columns: whether the first
character of the name is an underscore. -/
def starts_with_underscore (s : String) : Bool := s.data.head? == some '_'

/-- The directed duplicate-group key of an edge row:
`PARTITION BY _source, _target`. -/
def dir_key (e : RawEdge) : Option Nat × Option Nat := (e.source, e.target)

/-- SQL `LEAST` on two nullable integers (null operands are ignored). -/
def least_opt : Option Nat → Option Nat → Option Nat
  | some a, some b => some (min a b)
  | some a, none => some a
  | none, some b => some b
  | none, none => none

/-- SQL `GREATEST` on two nullable integers (null operands are ignored). -/
def greatest_opt : Option Nat → Option Nat → Option Nat
  | some a, some b => some (max a b)
  | some a, none => some a
  | none, some b => some b
  | none, none => none

/-- The undirected duplicate-group key of an edge row:
`PARTITION BY LEAST(_source, _target), GREATEST(_source, _target)`. -/
def undir_key (e : RawEdge) : Option Nat × Option Nat :=
  (least_opt e.source e.target, greatest_opt e.source e.target)

/-- The directed duplicate-group key read back off an augmented row. -/
def dir_key_out (e : AugEdge) : Option Nat × Option Nat := (e.source, e.target)

/-- The undirected duplicate-group key read back off an augmented row. -/
def undir_key_out (e : AugEdge) : Option Nat × Option Nat :=
  (least_opt e.source e.target, greatest_opt e.source e.target)

/-- Worker for the edge-augmentation query.  `allD`/`allU` are the
directed/undirected keys of the whole table (the window `COUNT(*)` is a
count over the full partition), `i` is the running `ROW_NUMBER() OVER ()
- 1` and `seenD`/`seenU` are the keys of the rows already scanned, so
that `1 + seenD.count k` is the 1-based `ROW_NUMBER()` of the row inside
its partition in scan order. -/
def augment_edges_go (allD allU : List (Option Nat × Option Nat)) :
    Nat → List (Option Nat × Option Nat) → List (Option Nat × Option Nat) →
    List RawEdge → List AugEdge
  | _, _, _, [] => []
  | i, seenD, seenU, e :: rest =>
    { edgeId := i
      source := e.source
      target := e.target
      countDir := allD.count (dir_key e)
      idxDir := 1 + seenD.count (dir_key e)
      countUndir := allU.count (undir_key e)
      idxUndir := 1 + seenU.count (undir_key e)
      attrs := e.attrs.filter fun p => ¬ starts_with_underscore p.1 } ::
      augment_edges_go allD allU (i + 1) (seenD ++ [dir_key e])
        (seenU ++ [undir_key e]) rest

/-- Embedding of `augment_edges_table_with_id_and_weights`
(`utils/__init__.py`): one relational pass assigning `_edge_id` by row
position and the four duplicate count/index columns by the directed and
undirected partitions, carrying along the non-reserved attribute
columns. -/
def augment_edges_table_with_id_and_weights (es : List RawEdge) : List AugEdge :=
  augment_edges_go (es.map dir_key) (es.map undir_key) 0 [] [] es

example :
    (augment_edges_table_with_id_and_weights
      [⟨some 0, some 1, []⟩, ⟨some 1, some 0, []⟩, ⟨some 0, some 1, []⟩]).map
      (fun e => (e.edgeId, e.countDir, e.idxDir, e.countUndir, e.idxUndir)) =
      [(0, 2, 1, 3, 1), (1, 1, 1, 3, 2), (2, 2, 2, 3, 3)] := by decide

/-- A row of the intermediate node relation built by the first query of
`augment_nodes_table_with_connection_counts`: per-node connection
counts for the four graph interpretations plus the `_is_source` /
`_is_target` flags.  The `COALESCE(..., 0)` of the left joins is the
`0` that the counting functions return when no edge row matches. -/
structure NodeCounts where
  nodeId : Nat
  label : String
  connections : Nat
  connectionsMulti : Nat
  inDir : Nat
  inDirMulti : Nat
  outDir : Nat
  outDirMulti : Nat
  isSource : Bool
  isTarget : Bool
  attrs : List (String × String)
deriving DecidableEq, Repr

/-- A row of the nodes table after
`augment_nodes_table_with_connection_counts`: the counts of the first
query plus the four degree-centrality columns of the second query.
SQL `/` on integers is floating-point division in the engine used by
the source; it is embedded as `Rat` division. -/
structure AugNode extends NodeCounts where
  centrality : Rat
  bipartite : Rat
  centralityMulti : Rat
  bipartiteMulti : Rat
deriving DecidableEq, Repr

/-- `_in_edges` of a node: the left join against the edges grouped by
`(_target, _idx_dup_directed)` restricted to index 1, i.e. the number
of edge rows with this target and directed duplicate-index 1. -/
def in_directed (es : List AugEdge) (v : Nat) : Nat :=
  es.countP fun e => decide (e.target = some v ∧ e.idxDir = 1)

/-- `_in_edges_multi` of a node: the number of edge rows with this
target. -/
def in_directed_multi (es : List AugEdge) (v : Nat) : Nat :=
  es.countP fun e => decide (e.target = some v)

/-- `_out_edges` of a node: the number of edge rows with this source
and directed duplicate-index 1. -/
def out_directed (es : List AugEdge) (v : Nat) : Nat :=
  es.countP fun e => decide (e.source = some v ∧ e.idxDir = 1)

/-- `_out_edges_multi` of a node: the number of edge rows with this
source. -/
def out_directed_multi (es : List AugEdge) (v : Nat) : Nat :=
  es.countP fun e => decide (e.source = some v)

/-- The first query of `augment_nodes_table_with_connection_counts`
evaluated for one node row. -/
def node_counts_row (es : List AugEdge) (nd : RawNode) : NodeCounts :=
  { nodeId := nd.nodeId
    label := nd.label
    connections := in_directed es nd.nodeId + out_directed es nd.nodeId
    connectionsMulti := in_directed_multi es nd.nodeId + out_directed_multi es nd.nodeId
    inDir := in_directed es nd.nodeId
    inDirMulti := in_directed_multi es nd.nodeId
    outDir := out_directed es nd.nodeId
    outDirMulti := out_directed_multi es nd.nodeId
    isSource := es.any fun e => decide (e.source = some nd.nodeId)
    isTarget := es.any fun e => decide (e.target = some nd.nodeId)
    attrs := nd.attrs.filter fun p => ¬ starts_with_underscore p.1 }

/-- Ordering of node rows by node id, for the `ORDER BY` of the first
nodes query. -/
def byNodeId (a b : NodeCounts) : Prop := a.nodeId ≤ b.nodeId

instance : DecidableRel byNodeId := fun a b => Nat.decLe a.nodeId b.nodeId

instance : IsTotal NodeCounts byNodeId :=
  ⟨fun a b => Nat.le_total a.nodeId b.nodeId⟩

instance : IsTrans NodeCounts byNodeId :=
  ⟨fun _ _ _ h₁ h₂ => Nat.le_trans h₁ h₂⟩

/-- Embedding of `augment_nodes_table_with_connection_counts`
(`utils/__init__.py`): the first query computes per-node counts from
the augmented edges table and sorts by node id; the second query adds
the plain and bipartite degree-centrality ratios, dividing by the input
row count, by the number of distinct node ids flagged `_is_source`, and
by the number flagged `_is_target`. -/
def augment_nodes_table_with_connection_counts
    (nodes_table : List RawNode) (edges_table : List AugEdge) : List AugNode :=
  let stage1 := List.insertionSort byNodeId (nodes_table.map (node_counts_row edges_table))
  let nodes_table_rows : Nat := nodes_table.length
  let nodes_table_rows_sources : Nat :=
    (((stage1.filter fun r => r.isSource).map fun r => r.nodeId).dedup).length
  let nodes_table_rows_targets : Nat :=
    (((stage1.filter fun r => r.isTarget).map fun r => r.nodeId).dedup).length
  stage1.map fun r =>
    { toNodeCounts := r
      centrality := (r.connections : Rat) / (nodes_table_rows : Rat)
      bipartite :=
        if r.isSource then (r.outDir : Rat) / (nodes_table_rows_sources : Rat)
        else (r.inDir : Rat) / (nodes_table_rows_targets : Rat)
      centralityMulti := (r.connectionsMulti : Rat) / (nodes_table_rows : Rat)
      bipartiteMulti :=
        if r.isSource then (r.outDirMulti : Rat) / (nodes_table_rows_sources : Rat)
        else (r.inDirMulti : Rat) / (nodes_table_rows_targets : Rat) }

example :
    (augment_nodes_table_with_connection_counts [⟨0, "X", []⟩]
      (augment_edges_table_with_id_and_weights [⟨some 0, some 0, []⟩])).map
      (fun r => (r.nodeId, r.connections)) = [(0, 2)] := by decide

example :
    (augment_nodes_table_with_connection_counts [⟨0, "X", []⟩]
      (augment_edges_table_with_id_and_weights [⟨some 0, some 0, []⟩])).map
      (fun r => r.centrality) = [2] := by
  simp [augment_nodes_table_with_connection_counts, node_counts_row,
    augment_edges_table_with_id_and_weights, augment_edges_go, in_directed,
    out_directed, in_directed_multi, out_directed_multi, dir_key, undir_key,
    least_opt, greatest_opt, List.insertionSort, List.orderedInsert,
    List.countP, List.countP.go]

/-- A node row after `augment_tables_with_component_ids` added the
`_component_id` column. -/
structure AugNodeC extends AugNode where
  compId : Nat
deriving DecidableEq, Repr

/-- An edge row after `augment_tables_with_component_ids` added the
`_component_id` column. -/
structure AugEdgeC extends AugEdge where
  compId : Nat
deriving DecidableEq, Repr

/-- One union step of the connectivity computation: all current
components touching `s` or `t` are merged into a single component (the
rest are left alone).  Applied per edge, this reproduces the partition
computed by the external `rustworkx.connected_components` call on the
graph that `augment_tables_with_component_ids` builds. -/
def ccInsertEdge (comps : List (List Nat)) (s t : Nat) : List (List Nat) :=
  let hit := comps.filter fun c => c.contains s || c.contains t
  let rest := comps.filter fun c => ¬ (c.contains s || c.contains t)
  rest ++ [hit.flatten]

/-- Connected components of the undirected graph on the vertex list
`verts` with the (self-loop-free) edge list `pairs`, starting from
singleton components and merging along each edge.  The enumeration
order of the components is an artifact of this computation; the
external library leaves it unspecified. -/
def connected_components_of (verts : List Nat) (pairs : List (Nat × Nat)) :
    List (List Nat) :=
  pairs.foldl (fun comps p => ccInsertEdge comps p.1 p.2)
    (verts.map fun v => [v])

/-- Ordering of components by descending size, the key of
`sorted(components, key=len, reverse=True)`. -/
def bySizeDesc (a b : List Nat) : Prop := b.length ≤ a.length

instance : DecidableRel bySizeDesc := fun a b => Nat.decLe b.length a.length

instance : IsTotal (List Nat) bySizeDesc := ⟨fun a b => Nat.le_total b.length a.length⟩

instance : IsTrans (List Nat) bySizeDesc :=
  ⟨fun _ _ _ h₁ h₂ => Nat.le_trans h₂ h₁⟩

/-- The component list sorted by descending node count; position in
this list is the assigned component id. -/
def sortBySizeDesc (cs : List (List Nat)) : List (List Nat) :=
  List.insertionSort bySizeDesc cs

/-- The component id of a node: the position of the (first) component
containing it in the size-sorted component list (`node_components` in
the source maps every node of every component to that position). -/
def compIndex (sorted : List (List Nat)) (v : Nat) : Option Nat :=
  sorted.findIdx? fun c => c.contains v

/-- Validity of one row of the edge loop that builds the rustworkx
graph: rows whose source and target cells are equal are skipped, and
any other row must carry two non-null endpoints that are existing graph
node indices, otherwise the `graph.add_edge` call raises. -/
def edge_row_ok (n : Nat) (e : AugEdge) : Bool :=
  e.source = e.target ||
    match e.source, e.target with
    | some s, some t => decide (s < n ∧ t < n)
    | _, _ => false

/-- The graph edge extracted from an edge row, skipping rows whose
source and target cells are equal (the self-loop `continue`). -/
def edge_row_pair (e : AugEdge) : Option (Nat × Nat) :=
  if e.source = e.target then none
  else e.source.bind fun s => e.target.map fun t => (s, t)

/-- The list of graph edges extracted from the edges table for the
component computation: one pair per non-skipped row. -/
def comp_pairs (edges_table : List AugEdge) : List (Nat × Nat) :=
  edges_table.filterMap edge_row_pair

/-- The positional attachment of the component-id column to the nodes
table: row `i` of the nodes table is paired with the `i`-th smallest
node id (`sorted(node_components.keys())`) and receives the position of
that id's component in the size-sorted component list. -/
def node_comp_column (sorted : List (List Nat)) (keys : List Nat)
    (nodes_table : List AugNode) : List AugNodeC :=
  (nodes_table.zip keys).map fun rk =>
    { toAugNode := rk.1, compId := (compIndex sorted rk.2).getD 0 }

/-- The join deriving the edge component ids: each edge row is joined
with the node row whose `_node_id` equals the edge's `_source` and
inherits that node's component id (an inner join, so rows whose source
matches no node are dropped). -/
def edge_comp_join (nodes2 : List AugNodeC) (edges_table : List AugEdge) :
    List AugEdgeC :=
  edges_table.filterMap fun e =>
    e.source.bind fun s =>
      (nodes2.find? fun r => r.nodeId = s).map fun r =>
        { toAugEdge := e, compId := r.compId }

/-- Embedding of `augment_tables_with_component_ids`
(`utils/__init__.py`).  The nodes are added to a rustworkx graph in row
order — the `assert node_id == graph_node_id` demands that the node-id
column is exactly `0, 1, ...` in row order — then the non-self-loop
edges.  A single component short-circuits to an all-zero column on both
tables.  Otherwise each node receives the position of its component in
the size-sorted component list, attached positionally over the sorted
node ids, and each edge receives the component id of the node matching
its source via a join.  Raising paths return `none`. -/
def augment_tables_with_component_ids
    (nodes_table : List AugNode) (edges_table : List AugEdge) :
    Option (List AugNodeC × List AugEdgeC) :=
  let n := nodes_table.length
  if nodes_table.map (fun r => r.nodeId) ≠ List.range n then none
  else if ¬ edges_table.all (edge_row_ok n) then none
  else
    let comps := connected_components_of (List.range n) (comp_pairs edges_table)
    if comps.length = 1 then
      some (nodes_table.map fun r => { toAugNode := r, compId := 0 },
        edges_table.map fun e => { toAugEdge := e, compId := 0 })
    else
      let sorted := sortBySizeDesc comps
      let sortedKeys := List.insertionSort (· ≤ ·) comps.flatten.dedup
      if sortedKeys.length ≠ n then none
      else
        some (node_comp_column sorted sortedKeys nodes_table,
          edge_comp_join (node_comp_column sorted sortedKeys nodes_table) edges_table)

example :
    (augment_tables_with_component_ids
      (augment_nodes_table_with_connection_counts
        [⟨0, "a", []⟩, ⟨1, "b", []⟩, ⟨2, "c", []⟩, ⟨3, "d", []⟩]
        (augment_edges_table_with_id_and_weights [⟨some 1, some 2, []⟩, ⟨some 1, some 2, []⟩]))
      (augment_edges_table_with_id_and_weights [⟨some 1, some 2, []⟩, ⟨some 1, some 2, []⟩])).map
      (fun p => (p.1.map fun r => (r.nodeId, r.compId), p.2.map fun e => e.compId)) =
      some ([(0, 1), (1, 0), (2, 0), (3, 2)], [0, 0]) := by decide

/-- The `NetworkData` container: the two augmented tables. -/
structure NetworkData where
  nodes : List AugNodeC
  edges : List AugEdgeC
deriving DecidableEq, Repr

/-- Embedding of `NetworkData.create_network_data`
(`models/__init__.py`) on the `augment_tables=True` path: augment the
edges, augment the nodes against the augmented edges, attach component
ids, then reject edges tables whose source or target column still
contains null values.  Raising paths return `none`. -/
def create_network_data (nodes_table : List RawNode) (edges_table : List RawEdge) :
    Option NetworkData :=
  let edges1 := augment_edges_table_with_id_and_weights edges_table
  let nodes1 := augment_nodes_table_with_connection_counts nodes_table edges1
  (augment_tables_with_component_ids nodes1 edges1).bind fun p =>
    if p.2.any (fun e => e.source.isNone) then none
    else if p.2.any (fun e => e.target.isNone) then none
    else some { nodes := p.1, edges := p.2 }

/-- Edge-count and parallel-edge statistics for one graph-type
interpretation (`GraphProperties` in `models/__init__.py`). -/
structure GraphProperties where
  number_of_edges : Nat
  parallel_edges : Nat
deriving DecidableEq, Repr

/-- The statistics of `NetworkGraphProperties` that are derived from
the two tables (`models/__init__.py`), keyed by graph type. -/
structure NetworkGraphProperties where
  number_of_nodes : Nat
  directed : GraphProperties
  directed_multi : GraphProperties
  undirected : GraphProperties
  undirected_multi : GraphProperties
  number_of_self_loops : Nat
deriving DecidableEq, Repr

/-- The SQL predicate `_source = _target` (false on null cells). -/
def self_loop_row (e : AugEdgeC) : Bool :=
  match e.source, e.target with
  | some a, some b => decide (a = b)
  | _, _ => false

/-- Embedding of `NetworkGraphProperties.create_value_metadata`
(`models/__init__.py`): directed-simple and undirected-simple edge
counts are the rows with the respective duplicate-index 1, the multi
counts are the raw row count, the parallel-edge counts are the rows
with the respective duplicate-index equal to 2, and self-loops are the
rows with `_source = _target`. -/
def create_value_metadata (nd : NetworkData) : NetworkGraphProperties :=
  let num_edges := nd.edges.length
  let num_edges_directed := nd.edges.countP fun e => decide (e.idxDir = 1)
  let num_edges_undirected := nd.edges.countP fun e => decide (e.idxUndir = 1)
  let num_self_loops := nd.edges.countP self_loop_row
  let num_parallel_edges_directed := nd.edges.countP fun e => decide (e.idxDir = 2)
  let num_parallel_edges_undirected := nd.edges.countP fun e => decide (e.idxUndir = 2)
  { number_of_nodes := nd.nodes.length
    directed := { number_of_edges := num_edges_directed, parallel_edges := 0 }
    directed_multi :=
      { number_of_edges := num_edges, parallel_edges := num_parallel_edges_directed }
    undirected := { number_of_edges := num_edges_undirected, parallel_edges := 0 }
    undirected_multi :=
      { number_of_edges := num_edges, parallel_edges := num_parallel_edges_undirected }
    number_of_self_loops := num_self_loops }

/-- The parallel-edge count the metadata extractor reports for the
directed-multi interpretation. -/
def parallel_directed_reported (nd : NetworkData) : Nat :=
  (create_value_metadata nd).directed_multi.parallel_edges

/-- The number of edge rows whose directed duplicate-index is at least
2 (the quantity the spec describes as the parallel-edge count). -/
def rows_idx_ge_two_directed (nd : NetworkData) : Nat :=
  nd.edges.countP fun e => decide (2 ≤ e.idxDir)

/-- SQL `x IN (list)` for a nullable cell: null is never `IN`. -/
def opt_mem (x : Option Nat) (l : List Nat) : Bool :=
  match x with
  | some v => l.contains v
  | none => false

/-- Embedding of `NetworkData.from_filtered_nodes`
(`models/__init__.py`): keep the nodes whose id is in the list and the
non-computed node columns; keep the edge rows whose source *or* target
is in the list and the non-computed edge columns; renumber the kept
node ids densely in row order and remap edge endpoints through the same
replacement map, endpoints absent from the map becoming null
(`replace_strict` with `default=None`); then rebuild via
`create_network_data` with table augmentation. -/
def from_filtered_nodes (nd : NetworkData) (nodes_list : List Nat) :
    Option NetworkData :=
  let nodes_sel := nd.nodes.filter fun r => (nodes_list.contains r.nodeId : Bool)
  let edges_sel := nd.edges.filter fun e =>
    opt_mem e.source nodes_list || opt_mem e.target nodes_list
  let repl : List (Nat × Nat) := nodes_sel.enum.map fun ir => (ir.2.nodeId, ir.1)
  let nodes_raw : List RawNode := nodes_sel.enum.map fun ir =>
    { nodeId := (repl.lookup ir.2.nodeId).getD ir.1
      label := ir.2.label
      attrs := ir.2.attrs }
  let edges_raw : List RawEdge := edges_sel.map fun e =>
    { source := e.source.bind fun s => repl.lookup s
      target := e.target.bind fun t => repl.lookup t
      attrs := e.attrs }
  create_network_data nodes_raw edges_raw

/-- The distinct values of a column, in ascending order (`.unique()`
followed by `.sort()` on the concatenated endpoint columns). -/
def unique_sorted (l : List Nat) : List Nat :=
  List.insertionSort (· ≤ ·) l.dedup

/-- Embedding of the no-nodes-table path of
`AssembleGraphFromTablesModule.process` (`modules/create.py`): the node
set is the union of the distinct edge endpoint values, dense ids are
assigned in sorted order of the original values, the synthesized nodes
table keeps the stringified original value as label and as an `id`
attribute column, the edge endpoints are mapped through the resulting
map (unmapped values become null and are rejected), and the result is
assembled via `create_network_data`. -/
def assemble_from_edges (es : List (Nat × Nat)) : Option NetworkData :=
  let uniq := unique_sorted (es.map Prod.fst ++ es.map Prod.snd)
  let nodes_raw : List RawNode := uniq.enum.map fun iv =>
    { nodeId := iv.1, label := toString iv.2, attrs := [("id", toString iv.2)] }
  let mapped := es.map fun p =>
    (uniq.findIdx? fun v => v = p.1, uniq.findIdx? fun v => v = p.2)
  if mapped.any (fun p => p.1.isNone) then none
  else if mapped.any (fun p => p.2.isNone) then none
  else
    let edges_raw : List RawEdge := mapped.map fun p =>
      { source := p.1, target := p.2, attrs := [] }
    create_network_data nodes_raw edges_raw

/-- The number of connected components of the undirected graph on
`verts` and `pairs`, self-loop edges ignored as in the graph built by
the modules. -/
def num_components (verts : List Nat) (pairs : List (Nat × Nat)) : Nat :=
  (connected_components_of verts (pairs.filter fun p => p.1 ≠ p.2)).length

/-- A node is a cut point (articulation point) when deleting it — and
the edges incident to it — increases the number of connected components
of the undirected-simple interpretation.  This is the defining property
of the external `rustworkx.articulation_points` call used by
`CutPointsList.process`. -/
def is_cut_point (n : Nat) (pairs : List (Nat × Nat)) (v : Nat) : Bool :=
  decide (num_components (List.range n) pairs <
    num_components ((List.range n).filter fun w => w ≠ v)
      (pairs.filter fun p => p.1 ≠ v ∧ p.2 ≠ v))

/-- The undirected graph edge list that `as_rustworkx_graph` (with
`omit_self_loops=False`) extracts from the edges table: every row with
its two endpoint cells. -/
def graph_pairs (nd : NetworkData) : List (Nat × Nat) :=
  nd.edges.filterMap fun e =>
    e.source.bind fun s => e.target.map fun t => (s, t)

/-- Embedding of `CutPointsList.process` (`modules/components.py`): the
articulation points of the undirected graph of the network data are
computed, and if that list is empty the module raises
`NotImplementedError` (modelled as `none`); otherwise the nodes table
is returned with a boolean `_is_cut_point` column flagging for every
node id in `range(num_nodes)` whether it is among the translated cut
points. -/
def cut_points_process (nd : NetworkData) :
    Option (List (AugNodeC × Bool) × List AugEdgeC) :=
  let n := nd.nodes.length
  let cut_points := (List.range n).filter (is_cut_point n (graph_pairs nd))
  if cut_points = [] then none
  else
    let column := (List.range n).map fun v => cut_points.contains v
    some (nd.nodes.zip column, nd.edges)

example :
    (create_network_data [⟨0, "a", []⟩, ⟨1, "b", []⟩] [⟨some 0, some 1, []⟩]).map
      (fun nd => (nd.nodes.map fun r => (r.nodeId, r.compId),
        nd.edges.map fun e => (e.source, e.target, e.compId))) =
      some ([(0, 0), (1, 0)], [(some 0, some 1, 0)]) := by decide

/-- A two-node network with one edge between the nodes, as produced by
`create_network_data`. -/
def two_node_network : Option NetworkData :=
  create_network_data [⟨0, "a", []⟩, ⟨1, "b", []⟩] [⟨some 0, some 1, []⟩]

/-- `from_filtered_nodes` applied to `two_node_network` with a node
list containing only node 0, so that the single edge has exactly one
endpoint inside the list. -/
def two_node_filtered : Option NetworkData :=
  two_node_network.bind fun nd => from_filtered_nodes nd [0]

/-- Projection of `from_filtered_nodes` output used to phrase what the
claim expects of a successful filtering: the node ids and the
endpoint pairs of the surviving edges. -/
def filtered_shape (nd : NetworkData) : List Nat × List (Option Nat × Option Nat) :=
  (nd.nodes.map fun r => r.nodeId, nd.edges.map fun e => (e.source, e.target))

/-- A two-node network whose single node pair carries three parallel
directed edge rows. -/
def triple_edge_network : Option NetworkData :=
  create_network_data [⟨0, "a", []⟩, ⟨1, "b", []⟩]
    [⟨some 0, some 1, []⟩, ⟨some 0, some 1, []⟩, ⟨some 0, some 1, []⟩]

/-- A triangle: three mutually connected nodes, a biconnected graph
with no articulation point. -/
def triangle_network : Option NetworkData :=
  create_network_data [⟨0, "a", []⟩, ⟨1, "b", []⟩, ⟨2, "c", []⟩]
    [⟨some 0, some 1, []⟩, ⟨some 1, some 2, []⟩, ⟨some 0, some 2, []⟩]

/-- `CutPointsList.process` applied to the triangle. -/
def triangle_cut_points : Option (List (AugNodeC × Bool) × List AugEdgeC) :=
  triangle_network.bind fun nd => cut_points_process nd

/-- The nodes table augmented over a single node carrying a single
self-loop edge row. -/
def self_loop_nodes : List AugNode :=
  augment_nodes_table_with_connection_counts [⟨0, "X", []⟩]
    (augment_edges_table_with_id_and_weights [⟨some 0, some 0, []⟩])

/-- The `NetworkData` value inside `two_node_network`. -/
def two_node_network0 : NetworkData := two_node_network.getD ⟨[], []⟩

/-- The `NetworkData` value inside `triple_edge_network`. -/
def triple_edge_network0 : NetworkData := triple_edge_network.getD ⟨[], []⟩

/-- An augmented three-node table over a single edge `(0, 1)`; the
graph has two components, `{0, 1}` and `{2}`. -/
def c6_nodes_example : List AugNode :=
  augment_nodes_table_with_connection_counts
    [⟨0, "a", []⟩, ⟨1, "b", []⟩, ⟨2, "c", []⟩]
    (augment_edges_table_with_id_and_weights [⟨some 0, some 1, []⟩])

/-- The augmented single-row edges table matching `c6_nodes_example`. -/
def c6_edges_example : List AugEdge :=
  augment_edges_table_with_id_and_weights [⟨some 0, some 1, []⟩]

/-- The component-labeled tables of the two-component example. -/
def c6_result : List AugNodeC × List AugEdgeC :=
  (augment_tables_with_component_ids c6_nodes_example c6_edges_example).getD ([], [])

/-- The single labeled edge row of the two-component example. -/
def c6_edge0 : AugEdgeC := c6_result.2.get ⟨0, by decide⟩

/-- The labeled node row of node id 0 in the two-component example. -/
def c6_node0 : AugNodeC := c6_result.1.get ⟨0, by decide⟩

/-- The labeled node row of node id 1 in the two-component example. -/
def c6_node1 : AugNodeC := c6_result.1.get ⟨1, by decide⟩

/-- An augmented two-node table over a single edge `(0, 1)`. -/
def c8_nodes_example : List AugNode :=
  augment_nodes_table_with_connection_counts [⟨0, "a", []⟩, ⟨1, "b", []⟩]
    (augment_edges_table_with_id_and_weights [⟨some 0, some 1, []⟩])

/-- The first row of `c8_nodes_example`. -/
def c8_row : AugNode := c8_nodes_example.get ⟨0, by decide⟩

/-- Two components share no node. -/
def no_shared_node (c d : List Nat) : Prop := ∀ x, x ∈ c → x ∉ d

/-- Two nodes lie in one common component of the given component
list. -/
def same_comp (comps : List (List Nat)) (a b : Nat) : Prop :=
  ∃ c ∈ comps, a ∈ c ∧ b ∈ c

/-- The number of distinct node ids of a nodes table that occur as the
source of at least one edge row — the spec's "number of nodes that ever
act as source", the denominator of the bipartite degree centrality. -/
def nodes_acting_as_source (ns : List RawNode) (es : List AugEdge) : Nat :=
  (((ns.map fun nd => nd.nodeId).filter fun v =>
    es.any fun e => decide (e.source = some v)).dedup).length

/-- The number of distinct node ids of a nodes table that occur as the
target of at least one edge row — the spec's "number of nodes that ever
act as target". -/
def nodes_acting_as_target (ns : List RawNode) (es : List AugEdge) : Nat :=
  (((ns.map fun nd => nd.nodeId).filter fun v =>
    es.any fun e => decide (e.target = some v)).dedup).length

/-! ## Lemmas about the edge augmentation pass -/

theorem augment_edges_go_length (allD allU : List (Option Nat × Option Nat)) :
    ∀ (rest : List RawEdge) (i : Nat) (seenD seenU : List (Option Nat × Option Nat)),
    (augment_edges_go allD allU i seenD seenU rest).length = rest.length := by
  intro rest
  induction rest with
  | nil => intro i sD sU; rfl
  | cons e rest ih =>
    intro i sD sU
    simp [augment_edges_go, ih]

theorem augment_edges_go_countP_dir (allD allU : List (Option Nat × Option Nat))
    (k : Option Nat × Option Nat) (m : Nat) :
    ∀ (rest : List RawEdge) (i : Nat) (seenD seenU : List (Option Nat × Option Nat)),
    (augment_edges_go allD allU i seenD seenU rest).countP
      (fun a => decide (dir_key_out a = k ∧ a.idxDir = m)) =
      if seenD.count k < m ∧ m ≤ seenD.count k + (rest.map dir_key).count k then 1
      else 0 := by
  intro rest
  induction rest with
  | nil =>
    intro i sD sU
    simp only [augment_edges_go, List.countP_nil, List.map_nil, List.count_nil]
    split_ifs with h
    · omega
    · rfl
  | cons e rest ih =>
    intro i sD sU
    rw [augment_edges_go, List.countP_cons, ih]
    simp only [dir_key_out, dir_key, List.map_cons, List.count_cons,
      List.count_append, List.count_singleton', List.count_nil,
      decide_eq_true_eq]
    by_cases hk : (e.source, e.target) = k
    · subst hk
      simp only [eq_self_iff_true, true_and, beq_self_eq_true, if_true]
      split_ifs <;> omega
    · have hk' : ¬ ((e.source, e.target) == k) = true := by
        simpa using hk
      simp only [if_neg (by simpa using hk), hk, false_and, if_false]
      split_ifs <;> simp_all <;> omega

theorem augment_edges_go_countP_undir (allD allU : List (Option Nat × Option Nat))
    (k : Option Nat × Option Nat) (m : Nat) :
    ∀ (rest : List RawEdge) (i : Nat) (seenD seenU : List (Option Nat × Option Nat)),
    (augment_edges_go allD allU i seenD seenU rest).countP
      (fun a => decide (undir_key_out a = k ∧ a.idxUndir = m)) =
      if seenU.count k < m ∧ m ≤ seenU.count k + (rest.map undir_key).count k then 1
      else 0 := by
  intro rest
  induction rest with
  | nil =>
    intro i sD sU
    simp only [augment_edges_go, List.countP_nil, List.map_nil, List.count_nil]
    split_ifs with h
    · omega
    · rfl
  | cons e rest ih =>
    intro i sD sU
    rw [augment_edges_go, List.countP_cons, ih]
    simp only [undir_key_out, undir_key, List.map_cons, List.count_cons,
      List.count_append, List.count_singleton', List.count_nil,
      decide_eq_true_eq]
    by_cases hk : (least_opt e.source e.target, greatest_opt e.source e.target) = k
    · subst hk
      simp only [eq_self_iff_true, true_and, beq_self_eq_true, if_true]
      split_ifs <;> omega
    · simp only [if_neg (by simpa using hk), hk, false_and, if_false]
      split_ifs <;> simp_all <;> omega

theorem augment_edges_go_counts (allD allU : List (Option Nat × Option Nat)) :
    ∀ (rest : List RawEdge) (i : Nat) (seenD seenU : List (Option Nat × Option Nat)),
    ∀ a ∈ augment_edges_go allD allU i seenD seenU rest,
      a.countDir = allD.count (dir_key_out a) ∧
      a.countUndir = allU.count (undir_key_out a) := by
  intro rest
  induction rest with
  | nil => intro i sD sU a ha; simp [augment_edges_go] at ha
  | cons e rest ih =>
    intro i sD sU a ha
    rw [augment_edges_go] at ha
    rcases List.mem_cons.mp ha with h | h
    · subst h
      constructor
      · simp [dir_key_out, dir_key]
      · simp [undir_key_out, undir_key]
    · exact ih _ _ _ a h

theorem augment_edges_go_frame (allD allU : List (Option Nat × Option Nat)) :
    ∀ (rest : List RawEdge) (i : Nat) (seenD seenU : List (Option Nat × Option Nat)),
    List.Forall₂
      (fun (a : AugEdge) (e : RawEdge) =>
        a.source = e.source ∧ a.target = e.target ∧
        a.attrs = e.attrs.filter fun p => ¬ starts_with_underscore p.1)
      (augment_edges_go allD allU i seenD seenU rest) rest := by
  intro rest
  induction rest with
  | nil => intro i sD sU; exact List.Forall₂.nil
  | cons e rest ih =>
    intro i sD sU
    rw [augment_edges_go]
    exact List.Forall₂.cons ⟨rfl, rfl, rfl⟩ (ih _ _ _)

/-! ## Lemmas about the connectivity computation -/

theorem no_shared_node_symm : Symmetric no_shared_node := by
  intro c d h x hxd hxc
  exact h x hxc hxd

theorem ccInsertEdge_mem_iff (comps : List (List Nat)) (s t v : Nat) :
    (∃ c ∈ ccInsertEdge comps s t, v ∈ c) ↔ ∃ c ∈ comps, v ∈ c := by
  unfold ccInsertEdge
  constructor
  · rintro ⟨c, hc, hv⟩
    rcases List.mem_append.mp hc with h | h
    · exact ⟨c, (List.mem_filter.mp h).1, hv⟩
    · rcases List.mem_singleton.mp h with rfl
      rcases List.mem_flatten.mp hv with ⟨d, hd, hvd⟩
      exact ⟨d, (List.mem_filter.mp hd).1, hvd⟩
  · rintro ⟨c, hc, hv⟩
    by_cases hp : (c.contains s || c.contains t) = true
    · refine ⟨_, List.mem_append_right _ (List.mem_singleton.mpr rfl), ?_⟩
      exact List.mem_flatten.mpr ⟨c, List.mem_filter.mpr ⟨hc, hp⟩, hv⟩
    · refine ⟨c, List.mem_append_left _ (List.mem_filter.mpr ⟨hc, ?_⟩), hv⟩
      simpa using hp

theorem ccInsertEdge_disjoint (comps : List (List Nat)) (s t : Nat)
    (h : comps.Pairwise no_shared_node) :
    (ccInsertEdge comps s t).Pairwise no_shared_node := by
  unfold ccInsertEdge
  rw [List.pairwise_append]
  refine ⟨h.filter _, List.pairwise_singleton _ _, ?_⟩
  intro c hc d hd
  rcases List.mem_singleton.mp hd with rfl
  intro x hxc hxf
  rcases List.mem_flatten.mp hxf with ⟨d', hd', hxd'⟩
  have hcm := List.mem_filter.mp hc
  have hdm := List.mem_filter.mp hd'
  have hne : c ≠ d' := by
    intro hcd
    rw [hcd] at hcm
    rw [hdm.2] at hcm
    simpa using hcm.2
  exact List.Pairwise.forall no_shared_node_symm h hcm.1 hdm.1 hne x hxc hxd'

theorem ccInsertEdge_same_comp_mono (comps : List (List Nat)) (s t a b : Nat)
    (h : same_comp comps a b) : same_comp (ccInsertEdge comps s t) a b := by
  rcases h with ⟨c, hc, ha, hb⟩
  unfold ccInsertEdge same_comp
  by_cases hp : (c.contains s || c.contains t) = true
  · refine ⟨_, List.mem_append_right _ (List.mem_singleton.mpr rfl), ?_, ?_⟩
    · exact List.mem_flatten.mpr ⟨c, List.mem_filter.mpr ⟨hc, hp⟩, ha⟩
    · exact List.mem_flatten.mpr ⟨c, List.mem_filter.mpr ⟨hc, hp⟩, hb⟩
  · refine ⟨c, List.mem_append_left _ (List.mem_filter.mpr ⟨hc, ?_⟩), ha, hb⟩
    simpa using hp

theorem ccInsertEdge_connects (comps : List (List Nat)) (s t : Nat)
    (hs : ∃ c ∈ comps, s ∈ c) (ht : ∃ c ∈ comps, t ∈ c) :
    same_comp (ccInsertEdge comps s t) s t := by
  rcases hs with ⟨cs, hcs, hscs⟩
  rcases ht with ⟨ct, hct, htct⟩
  unfold ccInsertEdge same_comp
  refine ⟨_, List.mem_append_right _ (List.mem_singleton.mpr rfl), ?_, ?_⟩
  · refine List.mem_flatten.mpr ⟨cs, List.mem_filter.mpr ⟨hcs, ?_⟩, hscs⟩
    simp only [Bool.or_eq_true, List.elem_iff]
    exact Or.inl hscs
  · refine List.mem_flatten.mpr ⟨ct, List.mem_filter.mpr ⟨hct, ?_⟩, htct⟩
    simp only [Bool.or_eq_true, List.elem_iff]
    exact Or.inr htct

theorem cc_fold_mem_iff (pairs : List (Nat × Nat)) :
    ∀ (comps : List (List Nat)) (v : Nat),
    (∃ c ∈ pairs.foldl (fun cs p => ccInsertEdge cs p.1 p.2) comps, v ∈ c) ↔
      ∃ c ∈ comps, v ∈ c := by
  induction pairs with
  | nil => intro comps v; rfl
  | cons p rest ih =>
    intro comps v
    rw [List.foldl_cons, ih, ccInsertEdge_mem_iff]

theorem cc_fold_disjoint (pairs : List (Nat × Nat)) :
    ∀ (comps : List (List Nat)), comps.Pairwise no_shared_node →
    (pairs.foldl (fun cs p => ccInsertEdge cs p.1 p.2) comps).Pairwise no_shared_node := by
  induction pairs with
  | nil => intro comps h; exact h
  | cons p rest ih =>
    intro comps h
    rw [List.foldl_cons]
    exact ih _ (ccInsertEdge_disjoint comps p.1 p.2 h)

theorem cc_fold_same_comp_mono (pairs : List (Nat × Nat)) :
    ∀ (comps : List (List Nat)) (a b : Nat), same_comp comps a b →
    same_comp (pairs.foldl (fun cs p => ccInsertEdge cs p.1 p.2) comps) a b := by
  induction pairs with
  | nil => intro comps a b h; exact h
  | cons p rest ih =>
    intro comps a b h
    rw [List.foldl_cons]
    exact ih _ a b (ccInsertEdge_same_comp_mono comps p.1 p.2 a b h)

theorem cc_fold_connects (pairs : List (Nat × Nat)) :
    ∀ (comps : List (List Nat)) (s t : Nat), (s, t) ∈ pairs →
    (∃ c ∈ comps, s ∈ c) → (∃ c ∈ comps, t ∈ c) →
    same_comp (pairs.foldl (fun cs p => ccInsertEdge cs p.1 p.2) comps) s t := by
  induction pairs with
  | nil => intro comps s t h; simp at h
  | cons p rest ih =>
    intro comps s t hmem hs ht
    rw [List.foldl_cons]
    rcases List.mem_cons.mp hmem with h | h
    · rw [← h]
      exact cc_fold_same_comp_mono rest _ _ _ (ccInsertEdge_connects comps s t hs ht)
    · exact ih _ s t h ((ccInsertEdge_mem_iff comps p.1 p.2 s).mpr hs)
        ((ccInsertEdge_mem_iff comps p.1 p.2 t).mpr ht)

theorem cc_range_mem_iff (n : Nat) (pairs : List (Nat × Nat)) (v : Nat) :
    (∃ c ∈ connected_components_of (List.range n) pairs, v ∈ c) ↔ v < n := by
  unfold connected_components_of
  rw [cc_fold_mem_iff]
  constructor
  · rintro ⟨c, hc, hv⟩
    rcases List.mem_map.mp hc with ⟨w, hw, rfl⟩
    rcases List.mem_singleton.mp hv with rfl
    exact List.mem_range.mp hw
  · intro hv
    exact ⟨[v], List.mem_map.mpr ⟨v, List.mem_range.mpr hv, rfl⟩, List.mem_singleton.mpr rfl⟩

theorem cc_range_disjoint (n : Nat) (pairs : List (Nat × Nat)) :
    (connected_components_of (List.range n) pairs).Pairwise no_shared_node := by
  unfold connected_components_of
  refine cc_fold_disjoint pairs _ ?_
  refine List.Pairwise.map (fun v => [v]) ?_ (List.nodup_range n)
  intro a b hab x hxa hxb
  rcases List.mem_singleton.mp hxa with rfl
  exact hab (List.mem_singleton.mp hxb)

theorem cc_range_connects (n : Nat) (pairs : List (Nat × Nat)) (s t : Nat)
    (hmem : (s, t) ∈ pairs) (hs : s < n) (ht : t < n) :
    same_comp (connected_components_of (List.range n) pairs) s t := by
  unfold connected_components_of
  refine cc_fold_connects pairs _ s t hmem ?_ ?_
  · exact ⟨[s], List.mem_map.mpr ⟨s, List.mem_range.mpr hs, rfl⟩, List.mem_singleton.mpr rfl⟩
  · exact ⟨[t], List.mem_map.mpr ⟨t, List.mem_range.mpr ht, rfl⟩, List.mem_singleton.mpr rfl⟩

theorem findIdx_contains_isSome (v : Nat) :
    ∀ (l : List (List Nat)) (i : Nat) (c : List Nat), c ∈ l → v ∈ c →
    (l.findIdx? (fun d => d.contains v) i).isSome := by
  intro l
  induction l with
  | nil => intro i c hc; simp at hc
  | cons h tail ih =>
    intro i c hc hv
    rw [List.findIdx?_cons]
    by_cases hp : h.contains v = true
    · rw [if_pos hp]
      rfl
    · rcases List.mem_cons.mp hc with rfl | hc'
      · exact absurd (List.elem_iff.mpr hv) hp
      · simp only [hp, if_false]
        exact ih (i + 1) c hc' hv

theorem findIdx_contains_congr (s t : Nat) :
    ∀ (l : List (List Nat)) (i : Nat), l.Pairwise no_shared_node →
    ∀ c ∈ l, s ∈ c → t ∈ c →
    l.findIdx? (fun d => d.contains s) i = l.findIdx? (fun d => d.contains t) i := by
  intro l
  induction l with
  | nil => intro i _ c hc; simp at hc
  | cons h tail ih =>
    intro i hpw c hc hs ht
    rw [List.findIdx?_cons, List.findIdx?_cons]
    by_cases hsh : s ∈ h
    · have hth : t ∈ h := by
        rcases List.mem_cons.mp hc with rfl | hc'
        · exact ht
        · exfalso
          exact (List.pairwise_cons.mp hpw).1 c hc' s hsh hs
      rw [if_pos (List.elem_iff.mpr hsh), if_pos (List.elem_iff.mpr hth)]
    · have hth : t ∉ h := by
        intro hth
        rcases List.mem_cons.mp hc with rfl | hc'
        · exact hsh hs
        · exact (List.pairwise_cons.mp hpw).1 c hc' t hth ht
      have hc' : c ∈ tail := by
        rcases List.mem_cons.mp hc with rfl | hc'
        · exact absurd hs hsh
        · exact hc'
      rw [if_neg (by simpa using hsh), if_neg (by simpa using hth)]
      exact ih (i + 1) (List.pairwise_cons.mp hpw).2 c hc' hs ht

theorem compIndex_eq_of_same_comp (l : List (List Nat)) (s t : Nat)
    (hpw : l.Pairwise no_shared_node) (h : same_comp l s t) :
    compIndex l s = compIndex l t := by
  rcases h with ⟨c, hc, hs, ht⟩
  exact findIdx_contains_congr s t l 0 hpw c hc hs ht

theorem sorted_keys_eq_range (n : Nat) (pairs : List (Nat × Nat)) :
    List.insertionSort (· ≤ ·)
      (connected_components_of (List.range n) pairs).flatten.dedup =
      List.range n := by
  set l := (connected_components_of (List.range n) pairs).flatten.dedup with hl
  have hmem : ∀ v, v ∈ l ↔ v < n := by
    intro v
    rw [hl, List.mem_dedup, List.mem_flatten]
    exact cc_range_mem_iff n pairs v
  have hnd : l.Nodup := List.nodup_dedup _
  have hperm : (List.insertionSort (· ≤ ·) l).Perm (List.range n) := by
    refine (List.perm_insertionSort (· ≤ ·) l).trans ?_
    refine (List.perm_ext_iff_of_nodup hnd (List.nodup_range n)).mpr ?_
    intro a
    rw [hmem a, List.mem_range]
  exact List.eq_of_perm_of_sorted hperm
    (List.sorted_insertionSort (· ≤ ·) l) (List.sorted_le_range n)


theorem node_comp_column_map_nodeId (sorted : List (List Nat)) (keys : List Nat)
    (nodes_table : List AugNode) (hlen : nodes_table.length ≤ keys.length) :
    (node_comp_column sorted keys nodes_table).map (fun r => r.nodeId) =
      nodes_table.map (fun r => r.nodeId) := by
  unfold node_comp_column
  rw [List.map_map]
  have : (fun r : AugNodeC => r.nodeId) ∘
      (fun rk : AugNode × Nat =>
        ({ toAugNode := rk.1, compId := (compIndex sorted rk.2).getD 0 } : AugNodeC)) =
      (fun r : AugNode => r.nodeId) ∘ Prod.fst := rfl
  rw [this, ← List.map_map, List.map_fst_zip _ _ hlen]

theorem zip_range_nodeId (nodes_table : List AugNode)
    (hids : nodes_table.map (fun r => r.nodeId) = List.range nodes_table.length) :
    ∀ rk ∈ nodes_table.zip (List.range nodes_table.length), rk.1.nodeId = rk.2 := by
  intro rk hrk
  rcases List.mem_iff_getElem.mp hrk with ⟨i, hi, hget⟩
  have hi' : i < nodes_table.length := by
    simpa [List.length_zip] using hi
  rw [List.getElem_zip] at hget
  have h1 : rk.1 = nodes_table[i] := by rw [← hget]
  have h2 : rk.2 = i := by
    rw [← hget]
    simp
  rw [h1, h2]
  have := congrArg (fun l => l[i]?) hids
  simpa [List.getElem?_map, List.getElem?_range, hi', List.getElem?_eq_getElem] using this

theorem node_comp_column_char (sorted : List (List Nat))
    (nodes_table : List AugNode)
    (hids : nodes_table.map (fun r => r.nodeId) = List.range nodes_table.length) :
    ∀ r ∈ node_comp_column sorted (List.range nodes_table.length) nodes_table,
      r.compId = (compIndex sorted r.nodeId).getD 0 := by
  intro r hr
  unfold node_comp_column at hr
  rcases List.mem_map.mp hr with ⟨rk, hrk, rfl⟩
  have h := zip_range_nodeId nodes_table hids rk hrk
  dsimp only
  rw [h]

theorem edge_comp_join_mem (nodes2 : List AugNodeC) (edges_table : List AugEdge)
    (e : AugEdgeC) (he : e ∈ edge_comp_join nodes2 edges_table) :
    ∃ e0 ∈ edges_table, ∃ s r, e0.source = some s ∧
      nodes2.find? (fun r => decide (r.nodeId = s)) = some r ∧
      e = { toAugEdge := e0, compId := r.compId } := by
  unfold edge_comp_join at he
  rcases List.mem_filterMap.mp he with ⟨e0, he0, heq⟩
  rcases hs : e0.source with _ | s
  · rw [hs] at heq
    simp at heq
  · rw [hs] at heq
    simp only [Option.some_bind] at heq
    rcases hf : nodes2.find? fun r => decide (r.nodeId = s) with _ | r
    · rw [hf] at heq
      simp at heq
    · rw [hf] at heq
      simp only [Option.map_some'] at heq
      exact ⟨e0, he0, s, r, hs, hf, (Option.some.inj heq).symm⟩

theorem augment_tables_node_ids (nodes_table : List AugNode) (edges_table : List AugEdge)
    (nodes2 : List AugNodeC) (edges2 : List AugEdgeC)
    (h : augment_tables_with_component_ids nodes_table edges_table = some (nodes2, edges2)) :
    nodes2.map (fun r => r.nodeId) = List.range nodes2.length := by
  unfold augment_tables_with_component_ids at h
  simp only [] at h
  split_ifs at h with hids hok hone hkeys
  · have h' := Option.some.inj h
    have hn2 : nodes2 = nodes_table.map fun r => { toAugNode := r, compId := 0 } :=
      (congrArg Prod.fst h').symm
    push_neg at hids
    subst hn2
    rw [List.map_map]
    have hcomp : ((fun r : AugNodeC => r.nodeId) ∘
        fun r : AugNode => ({ toAugNode := r, compId := 0 } : AugNodeC)) =
        fun r : AugNode => r.nodeId := rfl
    rw [hcomp]
    simp only [List.length_map]
    exact hids
  · have h' := Option.some.inj h
    have hn2 : nodes2 = node_comp_column
        (sortBySizeDesc (connected_components_of (List.range nodes_table.length)
          (comp_pairs edges_table)))
        (List.insertionSort (fun x1 x2 => x1 ≤ x2)
          (connected_components_of (List.range nodes_table.length)
            (comp_pairs edges_table)).flatten.dedup)
        nodes_table :=
      (congrArg Prod.fst h').symm
    push_neg at hids
    rw [sorted_keys_eq_range] at hn2
    subst hn2
    rw [node_comp_column_map_nodeId _ _ _ (by simp), hids]
    congr 1
    simp [node_comp_column]

/-- C6: after component labeling, every edge row's component id equals
the component id of the node matching its source *and* the component id
of the node matching its target — although the code derives the edge
value via a join on the source only, no edge spans two components,
because both endpoints of every non-self-loop edge were merged into one
component when the edge was added to the graph. -/
theorem augment_tables_edge_components
    (nodes_table : List AugNode) (edges_table : List AugEdge)
    (nodes2 : List AugNodeC) (edges2 : List AugEdgeC)
    (h : augment_tables_with_component_ids nodes_table edges_table = some (nodes2, edges2)) :
    ∀ e ∈ edges2, ∀ ns ∈ nodes2, ∀ nt ∈ nodes2,
      e.source = some ns.nodeId → e.target = some nt.nodeId →
      e.compId = ns.compId ∧ e.compId = nt.compId := by
  unfold augment_tables_with_component_ids at h
  simp only [] at h
  split_ifs at h with hids hok hone hkeys
  · have h' := Option.some.inj h
    have hn2 : nodes2 = nodes_table.map fun r =>
        ({ toAugNode := r, compId := 0 } : AugNodeC) := (congrArg Prod.fst h').symm
    have he2 : edges2 = edges_table.map fun e =>
        ({ toAugEdge := e, compId := 0 } : AugEdgeC) := (congrArg Prod.snd h').symm
    subst hn2
    subst he2
    intro e he ns hns nt hnt _ _
    rcases List.mem_map.mp he with ⟨e0, _, rfl⟩
    rcases List.mem_map.mp hns with ⟨n0, _, rfl⟩
    rcases List.mem_map.mp hnt with ⟨n1, _, rfl⟩
    exact ⟨rfl, rfl⟩
  · have h' := Option.some.inj h
    push_neg at hids
    rw [sorted_keys_eq_range] at h'
    have hn2 : nodes2 = node_comp_column
        (sortBySizeDesc (connected_components_of (List.range nodes_table.length)
          (comp_pairs edges_table)))
        (List.range nodes_table.length) nodes_table := (congrArg Prod.fst h').symm
    have he2 : edges2 = edge_comp_join
        (node_comp_column
          (sortBySizeDesc (connected_components_of (List.range nodes_table.length)
            (comp_pairs edges_table)))
          (List.range nodes_table.length) nodes_table) edges_table :=
      (congrArg Prod.snd h').symm
    have hperm : (sortBySizeDesc (connected_components_of (List.range nodes_table.length)
        (comp_pairs edges_table))).Perm
        (connected_components_of (List.range nodes_table.length)
          (comp_pairs edges_table)) :=
      List.perm_insertionSort bySizeDesc _
    have hdisj : (sortBySizeDesc (connected_components_of (List.range nodes_table.length)
        (comp_pairs edges_table))).Pairwise no_shared_node :=
      (List.Perm.pairwise_iff (fun hab => no_shared_node_symm hab) hperm).mpr
        (cc_range_disjoint nodes_table.length (comp_pairs edges_table))
    have hchar := node_comp_column_char
      (sortBySizeDesc (connected_components_of (List.range nodes_table.length)
        (comp_pairs edges_table))) nodes_table hids
    subst hn2
    subst he2
    intro e he ns hns nt hnt hes het
    obtain ⟨e0, he0, s, r, hsrc, hfind, rfl⟩ := edge_comp_join_mem _ _ e he
    have hrmem : r ∈ node_comp_column
        (sortBySizeDesc (connected_components_of (List.range nodes_table.length)
          (comp_pairs edges_table)))
        (List.range nodes_table.length) nodes_table := List.mem_of_find?_eq_some hfind
    have hrid : r.nodeId = s := by
      have := List.find?_some hfind
      simpa using this
    have hrcomp : r.compId = (compIndex
        (sortBySizeDesc (connected_components_of (List.range nodes_table.length)
          (comp_pairs edges_table))) s).getD 0 := by
      rw [← hrid]
      exact hchar r hrmem
    have hes' : s = ns.nodeId := by
      have : e0.source = some ns.nodeId := hes
      rw [hsrc] at this
      exact Option.some.inj this
    have hnscomp := hchar ns hns
    have hntcomp := hchar nt hnt
    have htgt : e0.target = some nt.nodeId := het
    constructor
    · rw [hrcomp, hnscomp, hes']
    · rw [hrcomp, hntcomp]
      by_cases hst : s = nt.nodeId
      · rw [hst]
      · have hpair : edge_row_pair e0 = some (s, nt.nodeId) := by
          unfold edge_row_pair
          rw [if_neg, hsrc, htgt]
          · rfl
          · rw [hsrc, htgt]
            intro hco
            exact hst (Option.some.inj hco)
        have hmem : (s, nt.nodeId) ∈ comp_pairs edges_table :=
          List.mem_filterMap.mpr ⟨e0, he0, hpair⟩
        have hok0 : edge_row_ok nodes_table.length e0 = true :=
          List.all_eq_true.mp hok e0 he0
        have hbounds : s < nodes_table.length ∧ nt.nodeId < nodes_table.length := by
          unfold edge_row_ok at hok0
          rw [hsrc, htgt] at hok0
          rcases Bool.or_eq_true _ _ |>.mp hok0 with hb | hb
          · exfalso
            have := of_decide_eq_true hb
            exact hst (Option.some.inj this)
          · exact of_decide_eq_true hb
        have hsame : same_comp (connected_components_of (List.range nodes_table.length)
            (comp_pairs edges_table)) s nt.nodeId :=
          cc_range_connects nodes_table.length (comp_pairs edges_table) s nt.nodeId
            hmem hbounds.1 hbounds.2
        have hsame' : same_comp (sortBySizeDesc (connected_components_of
            (List.range nodes_table.length) (comp_pairs edges_table))) s nt.nodeId := by
          rcases hsame with ⟨c, hc, hcs, hct⟩
          exact ⟨c, hperm.mem_iff.mpr hc, hcs, hct⟩
        rw [compIndex_eq_of_same_comp _ _ _ hdisj hsame']

/-! ## Generic list bookkeeping lemmas -/

theorem forall₂_mem_left {α β : Type} {R : α → β → Prop} :
    ∀ {l₁ : List α} {l₂ : List β}, List.Forall₂ R l₁ l₂ →
    ∀ a ∈ l₁, ∃ b ∈ l₂, R a b := by
  intro l₁ l₂ h
  induction h with
  | nil => intro a ha; simp at ha
  | cons hR _ ih =>
    intro a ha
    rcases List.mem_cons.mp ha with rfl | ha'
    · exact ⟨_, List.mem_cons_self _ _, hR⟩
    · rcases ih a ha' with ⟨b, hb, hRb⟩
      exact ⟨b, List.mem_cons_of_mem _ hb, hRb⟩

theorem forall₂_imp_mem {α β : Type} {R S : α → β → Prop} :
    ∀ {l₁ : List α} {l₂ : List β}, List.Forall₂ R l₁ l₂ →
    (∀ a, ∀ b ∈ l₂, R a b → S a b) → List.Forall₂ S l₁ l₂ := by
  intro l₁ l₂ h
  induction h with
  | nil => intro _; exact List.Forall₂.nil
  | cons hR htail ih =>
    intro himp
    refine List.Forall₂.cons (himp _ _ (List.mem_cons_self _ _) hR) (ih ?_)
    intro a b hb hab
    exact himp a b (List.mem_cons_of_mem _ hb) hab

theorem countP_eq_of_forall₂ {α β : Type} {l₁ : List α} {l₂ : List β}
    (f : α → β) (hf : List.Forall₂ (fun a b => f a = b) l₁ l₂) (p : β → Bool) :
    l₁.countP (fun a => p (f a)) = l₂.countP p := by
  induction hf with
  | nil => rfl
  | cons hR _ ih =>
    rw [List.countP_cons, List.countP_cons, ih, hR]

theorem count_map_eq_countP {α β : Type} [DecidableEq β] (f : α → β) (b : β) :
    ∀ (l : List α), (l.map f).count b = l.countP fun a => decide (f a = b) := by
  intro l
  induction l with
  | nil => rfl
  | cons a t ih =>
    simp only [List.map_cons, List.count_cons, List.countP_cons, ih]
    by_cases h : f a = b
    · simp [h]
    · simp [h]

theorem countP_filter_and {α : Type} (p q : α → Bool) :
    ∀ (l : List α), (l.filter p).countP q = l.countP fun a => p a && q a := by
  intro l
  induction l with
  | nil => rfl
  | cons a t ih =>
    by_cases hp : p a
    · simp [List.filter_cons, hp, List.countP_cons, ih]
    · simp [List.filter_cons, hp, List.countP_cons, ih]

/-! ## The construction pipeline -/

theorem create_network_data_inv (nodes_table : List RawNode) (edges_table : List RawEdge)
    (nd : NetworkData) (h : create_network_data nodes_table edges_table = some nd) :
    augment_tables_with_component_ids
      (augment_nodes_table_with_connection_counts nodes_table
        (augment_edges_table_with_id_and_weights edges_table))
      (augment_edges_table_with_id_and_weights edges_table) = some (nd.nodes, nd.edges) := by
  unfold create_network_data at h
  simp only [] at h
  rcases Option.bind_eq_some.mp h with ⟨p, hp, hf⟩
  split_ifs at hf
  have h' := Option.some.inj hf
  rw [hp]
  rw [← h']

/-! ## Claim C10 -/

/-- C10: for every `NetworkData` created via `create_network_data` with
table augmentation, the nodes table is sorted ascending by node id, and
row `i` holds the `i`-th smallest node id — the node-id column is
exactly `0, 1, ..., n-1` in row order, which is the positional
alignment the component-labeling step relies on. -/
theorem c10_nodes_table_sorted (nodes_table : List RawNode) (edges_table : List RawEdge)
    (nd : NetworkData) (h : create_network_data nodes_table edges_table = some nd) :
    nd.nodes.map (fun r => r.nodeId) = List.range nd.nodes.length ∧
    List.Sorted (· ≤ ·) (nd.nodes.map fun r => r.nodeId) := by
  have hids := augment_tables_node_ids _ _ _ _ (create_network_data_inv _ _ _ h)
  refine ⟨hids, ?_⟩
  rw [hids]
  exact List.sorted_le_range _

/-! ## Claim C4 -/

/-- C4: after edge augmentation, for every distinct `(source, target)`
pair occurring in the table exactly one row of that group has directed
duplicate-index 1, and every row carries the directed duplicate-count
of its group; symmetrically for the undirected grouping by the
canonically ordered pair. -/
theorem c4_duplicate_index_partition (es : List RawEdge)
    (hnn : ∀ e ∈ es, e.source.isSome ∧ e.target.isSome) :
    (∀ k ∈ es.map dir_key,
      (augment_edges_table_with_id_and_weights es).countP
        (fun a => decide (dir_key_out a = k ∧ a.idxDir = 1)) = 1) ∧
    (∀ a ∈ augment_edges_table_with_id_and_weights es,
      a.countDir = (es.map dir_key).count (dir_key_out a)) ∧
    (∀ k ∈ es.map undir_key,
      (augment_edges_table_with_id_and_weights es).countP
        (fun a => decide (undir_key_out a = k ∧ a.idxUndir = 1)) = 1) ∧
    (∀ a ∈ augment_edges_table_with_id_and_weights es,
      a.countUndir = (es.map undir_key).count (undir_key_out a)) := by
  refine ⟨?_, ?_, ?_, ?_⟩
  · intro k hk
    rw [augment_edges_table_with_id_and_weights, augment_edges_go_countP_dir]
    rw [if_pos]
    simp only [List.count_nil]
    have : 0 < (es.map dir_key).count k := List.count_pos_iff_mem.mpr hk
    omega
  · intro a ha
    exact (augment_edges_go_counts _ _ es 0 [] [] a ha).1
  · intro k hk
    rw [augment_edges_table_with_id_and_weights, augment_edges_go_countP_undir]
    rw [if_pos]
    simp only [List.count_nil]
    have : 0 < (es.map undir_key).count k := List.count_pos_iff_mem.mpr hk
    omega
  · intro a ha
    exact (augment_edges_go_counts _ _ es 0 [] [] a ha).2

/-! ## Claim C9 -/

/-- C9: edge augmentation is a pure column extension — the output has
one row per input row in the same order, and each row keeps its source
value, its target value and all its non-reserved attribute values
unchanged; the added columns are exactly the computed reserved-prefix
ones carried by the `AugEdge` record. -/
theorem c9_augmentation_frame (es : List RawEdge)
    (hnn : ∀ e ∈ es, e.source.isSome ∧ e.target.isSome)
    (hattrs : ∀ e ∈ es, ∀ p ∈ e.attrs, ¬ starts_with_underscore p.1) :
    (augment_edges_table_with_id_and_weights es).length = es.length ∧
    List.Forall₂ (fun (a : AugEdge) (e : RawEdge) =>
      a.source = e.source ∧ a.target = e.target ∧ a.attrs = e.attrs)
      (augment_edges_table_with_id_and_weights es) es := by
  constructor
  · exact augment_edges_go_length _ _ es 0 [] []
  · refine forall₂_imp_mem (augment_edges_go_frame _ _ es 0 [] []) ?_
    rintro a e he ⟨h1, h2, h3⟩
    refine ⟨h1, h2, ?_⟩
    rw [h3]
    apply List.filter_eq_self.mpr
    intro p hp
    simpa using hattrs e he p hp

/-! ## Claim C3 -/

theorem sortBySizeDesc_eq_of_perm (cs cs' : List (List Nat)) (hperm : cs'.Perm cs)
    (hne : cs.Pairwise fun a b => a.length ≠ b.length) :
    sortBySizeDesc cs = sortBySizeDesc cs' := by
  have hsymm : ∀ {a b : List Nat}, a.length ≠ b.length → b.length ≠ a.length :=
    fun h => h.symm
  have hp : (sortBySizeDesc cs).Perm (sortBySizeDesc cs') :=
    ((List.perm_insertionSort bySizeDesc cs).trans hperm.symm).trans
      (List.perm_insertionSort bySizeDesc cs').symm
  have hne1 : (sortBySizeDesc cs).Pairwise (fun a b => a.length ≠ b.length) :=
    (List.Perm.pairwise_iff hsymm (List.perm_insertionSort bySizeDesc cs)).mpr hne
  have hne2 : (sortBySizeDesc cs').Pairwise (fun a b => a.length ≠ b.length) :=
    (List.Perm.pairwise_iff hsymm hp.symm).mpr hne1
  have hs1 : (sortBySizeDesc cs).Pairwise bySizeDesc :=
    List.sorted_insertionSort bySizeDesc cs
  have hs2 : (sortBySizeDesc cs').Pairwise bySizeDesc :=
    List.sorted_insertionSort bySizeDesc cs'
  have hstrict1 : (sortBySizeDesc cs).Pairwise fun a b => b.length < a.length := by
    refine (hs1.and hne1).imp ?_
    rintro a b ⟨hle, hneq⟩
    exact lt_of_le_of_ne hle hneq.symm
  have hstrict2 : (sortBySizeDesc cs').Pairwise fun a b => b.length < a.length := by
    refine (hs2.and hne2).imp ?_
    rintro a b ⟨hle, hneq⟩
    exact lt_of_le_of_ne hle hneq.symm
  haveI : IsAntisymm (List Nat) (fun a b => b.length < a.length) :=
    ⟨fun a b h1 h2 => absurd (h1.trans h2) (lt_irrefl _)⟩
  exact List.eq_of_perm_of_sorted hp hstrict1 hstrict2

/-- C3: component ids are assigned by position in the size-sorted
component list — `sorted(components, key=len, reverse=True)` — so the
component at id 0 has maximal node count, node counts are
non-increasing in the id, and when no two components have equal node
count the resulting per-node assignment is independent of the
enumeration order in which the external library returns the components
(the only source of nondeterminism), so relabeling the same input
reproduces the same `component_id` for every node. -/
theorem c3_component_id_assignment (cs : List (List Nat)) :
    (∀ c₀, (sortBySizeDesc cs).head? = some c₀ → ∀ c ∈ cs, c.length ≤ c₀.length) ∧
    List.Sorted bySizeDesc (sortBySizeDesc cs) ∧
    (∀ cs', cs'.Perm cs → cs.Pairwise (fun a b => a.length ≠ b.length) →
      ∀ v, compIndex (sortBySizeDesc cs) v = compIndex (sortBySizeDesc cs') v) := by
  refine ⟨?_, List.sorted_insertionSort bySizeDesc cs, ?_⟩
  · intro c₀ hhead c hc
    have hmem : c ∈ sortBySizeDesc cs :=
      (List.perm_insertionSort bySizeDesc cs).symm.subset hc
    have hsort : (sortBySizeDesc cs).Pairwise bySizeDesc :=
      List.sorted_insertionSort bySizeDesc cs
    rcases hcase : sortBySizeDesc cs with _ | ⟨c₁, t⟩
    · rw [hcase] at hhead
      simp at hhead
    · rw [hcase] at hhead
      have hc₁ : c₁ = c₀ := Option.some.inj (by simpa using hhead)
      rw [hcase] at hmem hsort
      rcases List.mem_cons.mp hmem with rfl | hmt
    
      · rw [hc₁]
      · rw [← hc₁]
        exact (List.pairwise_cons.mp hsort).1 c hmt
  · intro cs' hperm hne v
    rw [sortBySizeDesc_eq_of_perm cs cs' hperm hne]

/-! ## Claim C2 -/

theorem augment_nodes_ids_perm (ns : List RawNode) (es : List AugEdge) :
    ((augment_nodes_table_with_connection_counts ns es).map fun r => r.nodeId).Perm
      (ns.map fun r => r.nodeId) := by
  unfold augment_nodes_table_with_connection_counts
  simp only []
  rw [List.map_map]
  have hcomp : ∀ (f : NodeCounts → AugNode), (∀ r, (f r).nodeId = r.nodeId) →
      ∀ (l : List NodeCounts), l.map ((fun r : AugNode => r.nodeId) ∘ f) =
        l.map fun r : NodeCounts => r.nodeId := by
    intro f hf l
    apply List.map_congr_left
    intro a _
    exact hf a
  rw [hcomp _ (fun r => rfl)]
  refine (List.Perm.map _ (List.perm_insertionSort byNodeId _)).trans ?_
  rw [List.map_map]
  exact List.Perm.refl _

theorem edge_comp_join_forall₂ (nodes2 : List AugNodeC) :
    ∀ (edges_table : List AugEdge),
    (∀ e ∈ edges_table, ∃ s, e.source = some s ∧ ∃ r ∈ nodes2, r.nodeId = s) →
    List.Forall₂ (fun (a : AugEdgeC) (b : AugEdge) => a.toAugEdge = b)
      (edge_comp_join nodes2 edges_table) edges_table := by
  intro edges_table
  induction edges_table with
  | nil => intro _; exact List.Forall₂.nil
  | cons e rest ih =>
    intro hall
    obtain ⟨s, hs, r, hr, hrid⟩ := hall e (List.mem_cons_self _ _)
    have hfind : (nodes2.find? fun r => decide (r.nodeId = s)).isSome :=
      List.find?_isSome.mpr ⟨r, hr, by simp [hrid]⟩
    rcases hf : nodes2.find? (fun r => decide (r.nodeId = s)) with _ | r0
    · rw [hf] at hfind
      simp at hfind
    · have hstep : edge_comp_join nodes2 (e :: rest) =
          { toAugEdge := e, compId := r0.compId } :: edge_comp_join nodes2 rest := by
        unfold edge_comp_join
        rw [List.filterMap_cons, hs]
        simp [hf]
      rw [hstep]
      exact List.Forall₂.cons rfl (ih fun e' he' => hall e' (List.mem_cons_of_mem _ he'))

theorem forall₂_map_comp_zero :
    ∀ (l : List AugEdge),
    List.Forall₂ (fun (a : AugEdgeC) (b : AugEdge) => a.toAugEdge = b)
      (l.map fun e => { toAugEdge := e, compId := 0 }) l := by
  intro l
  induction l with
  | nil => exact List.Forall₂.nil
  | cons e rest ih => exact List.Forall₂.cons rfl ih

theorem augment_tables_edges_correspond
    (nodes_table : List AugNode) (edges_table : List AugEdge)
    (nodes2 : List AugNodeC) (edges2 : List AugEdgeC)
    (h : augment_tables_with_component_ids nodes_table edges_table = some (nodes2, edges2))
    (hsrc : ∀ e ∈ edges_table, ∃ s, e.source = some s ∧
      s ∈ nodes_table.map fun r => r.nodeId) :
    List.Forall₂ (fun (a : AugEdgeC) (b : AugEdge) => a.toAugEdge = b)
      edges2 edges_table := by
  unfold augment_tables_with_component_ids at h
  simp only [] at h
  split_ifs at h with hids hok hone hkeys
  · have h' := Option.some.inj h
    have he2 : edges2 = edges_table.map fun e =>
        ({ toAugEdge := e, compId := 0 } : AugEdgeC) := (congrArg Prod.snd h').symm
    subst he2
    exact forall₂_map_comp_zero edges_table
  · have h' := Option.some.inj h
    push_neg at hids
    rw [sorted_keys_eq_range] at h'
    have he2 : edges2 = edge_comp_join
        (node_comp_column
          (sortBySizeDesc (connected_components_of (List.range nodes_table.length)
            (comp_pairs edges_table)))
          (List.range nodes_table.length) nodes_table) edges_table :=
      (congrArg Prod.snd h').symm
    subst he2
    apply edge_comp_join_forall₂
    intro e he
    obtain ⟨s, hs, hmem⟩ := hsrc e he
    refine ⟨s, hs, ?_⟩
    have hmap : (node_comp_column
        (sortBySizeDesc (connected_components_of (List.range nodes_table.length)
          (comp_pairs edges_table)))
        (List.range nodes_table.length) nodes_table).map (fun r => r.nodeId) =
        nodes_table.map fun r => r.nodeId :=
      node_comp_column_map_nodeId _ _ _ (by simp)
    have : s ∈ (node_comp_column
        (sortBySizeDesc (connected_components_of (List.range nodes_table.length)
          (comp_pairs edges_table)))
        (List.range nodes_table.length) nodes_table).map fun r => r.nodeId := by
      rw [hmap]
      exact hmem
    rcases List.mem_map.mp this with ⟨r, hr, hrid⟩
    exact ⟨r, hr, hrid⟩

theorem create_edges_correspond (ns : List RawNode) (es : List RawEdge)
    (nd : NetworkData) (h : create_network_data ns es = some nd)
    (href : ∀ e ∈ es, ∃ s, e.source = some s ∧ s ∈ ns.map fun r => r.nodeId) :
    List.Forall₂ (fun (a : AugEdgeC) (b : AugEdge) => a.toAugEdge = b) nd.edges
      (augment_edges_table_with_id_and_weights es) := by
  apply augment_tables_edges_correspond _ _ _ _ (create_network_data_inv _ _ _ h)
  intro a ha
  obtain ⟨e, he, h1, h2, h3⟩ := forall₂_mem_left (augment_edges_go_frame _ _ es 0 [] []) a ha
  obtain ⟨s, hs, hmem⟩ := href e he
  refine ⟨s, by rw [h1, hs], ?_⟩
  exact ((augment_nodes_ids_perm ns _).mem_iff).mpr hmem

/-- C2 counterexample: a network with three parallel rows on one
directed pair.  The metadata extractor reports a directed parallel-edge
count of 1 (one row with duplicate-index exactly 2), while the number
of rows with duplicate-index at least 2, which the claim says is
reported, is 2. -/
theorem c2_counterexample :
    triple_edge_network.map parallel_directed_reported = some 1 ∧
    triple_edge_network.map rows_idx_ge_two_directed = some 2 ∧ (1 : Nat) ≠ 2 :=
  ⟨rfl, rfl, by decide⟩

/-- C2 (amended): the metadata extractor reports, as the parallel-edge
count of the directed-multi (resp. undirected-multi) interpretation,
the number of edge rows whose directed (resp. undirected)
duplicate-index is *exactly* 2 — not the total of all rows with index
at least 2.  Each duplicate group with at least two rows contains
exactly one row of index 2, so the reported value counts the groups
that contain parallel edges. -/
theorem c2_parallel_edges_reported (ns : List RawNode) (es : List RawEdge)
    (nd : NetworkData) (h : create_network_data ns es = some nd)
    (href : ∀ e ∈ es, ∃ s, e.source = some s ∧ s ∈ ns.map fun r => r.nodeId) :
    parallel_directed_reported nd = nd.edges.countP (fun e => decide (e.idxDir = 2)) ∧
    (create_value_metadata nd).undirected_multi.parallel_edges =
      nd.edges.countP (fun e => decide (e.idxUndir = 2)) ∧
    (∀ k ∈ es.map dir_key,
      nd.edges.countP (fun a => decide (dir_key_out a.toAugEdge = k ∧ a.idxDir = 2)) =
        if 2 ≤ (es.map dir_key).count k then 1 else 0) ∧
    (∀ k ∈ es.map undir_key,
      nd.edges.countP (fun a => decide (undir_key_out a.toAugEdge = k ∧ a.idxUndir = 2)) =
        if 2 ≤ (es.map undir_key).count k then 1 else 0) := by
  have hcorr := create_edges_correspond ns es nd h href
  refine ⟨rfl, rfl, ?_, ?_⟩
  · intro k hk
    have ht := countP_eq_of_forall₂ (fun a : AugEdgeC => a.toAugEdge) hcorr
      (fun b => decide (dir_key_out b = k ∧ b.idxDir = 2))
    rw [ht, augment_edges_table_with_id_and_weights, augment_edges_go_countP_dir]
    simp only [List.count_nil]
    split_ifs <;> omega
  · intro k hk
    have ht := countP_eq_of_forall₂ (fun a : AugEdgeC => a.toAugEdge) hcorr
      (fun b => decide (undir_key_out b = k ∧ b.idxUndir = 2))
    rw [ht, augment_edges_table_with_id_and_weights, augment_edges_go_countP_undir]
    simp only [List.count_nil]
    split_ifs <;> omega

/-! ## Claim C8 -/

theorem in_directed_le (raw_es : List RawEdge) (ns : List RawNode) (v : Nat)
    (hsrc : ∀ e ∈ raw_es, ∃ s, e.source = some s ∧ s ∈ ns.map fun r => r.nodeId) :
    in_directed (augment_edges_table_with_id_and_weights raw_es) v ≤ ns.length := by
  rw [in_directed, List.countP_eq_length_filter]
  have hsub : (((augment_edges_table_with_id_and_weights raw_es).filter fun e =>
      decide (e.target = some v ∧ e.idxDir = 1)).map fun a => a.source) ⊆
      (ns.map fun r => r.nodeId).map some := by
    intro o ho
    rcases List.mem_map.mp ho with ⟨a, ha, rfl⟩
    have ha' := List.mem_of_mem_filter ha
    obtain ⟨e, he, h1, _, _⟩ :=
      forall₂_mem_left (augment_edges_go_frame _ _ raw_es 0 [] []) a ha'
    obtain ⟨s, hs, hmem⟩ := hsrc e he
    rw [h1, hs]
    exact List.mem_map.mpr ⟨s, hmem, rfl⟩
  have hnodup : (((augment_edges_table_with_id_and_weights raw_es).filter fun e =>
      decide (e.target = some v ∧ e.idxDir = 1)).map fun a => a.source).Nodup := by
    rw [List.nodup_iff_count_le_one]
    intro o
    rw [count_map_eq_countP, countP_filter_and]
    have hle : (augment_edges_table_with_id_and_weights raw_es).countP
        (fun a => decide (a.target = some v ∧ a.idxDir = 1) && decide (a.source = o)) ≤
        (augment_edges_table_with_id_and_weights raw_es).countP
        (fun a => decide (dir_key_out a = (o, some v) ∧ a.idxDir = 1)) := by
      apply List.countP_mono_left
      intro a _ hpa
      simp only [Bool.and_eq_true, decide_eq_true_eq] at hpa ⊢
      refine ⟨?_, hpa.1.2⟩
      rw [dir_key_out, hpa.2, hpa.1.1]
    refine le_trans hle ?_
    rw [augment_edges_table_with_id_and_weights, augment_edges_go_countP_dir]
    split_ifs <;> omega
  calc ((augment_edges_table_with_id_and_weights raw_es).filter fun e =>
      decide (e.target = some v ∧ e.idxDir = 1)).length
      = (((augment_edges_table_with_id_and_weights raw_es).filter fun e =>
        decide (e.target = some v ∧ e.idxDir = 1)).map fun a => a.source).length := by
        rw [List.length_map]
    _ ≤ ((ns.map fun r => r.nodeId).map some).length :=
        (List.subperm_of_subset hnodup hsub).length_le
    _ = ns.length := by simp

theorem out_directed_le (raw_es : List RawEdge) (ns : List RawNode) (v : Nat)
    (htgt : ∀ e ∈ raw_es, ∃ t, e.target = some t ∧ t ∈ ns.map fun r => r.nodeId) :
    out_directed (augment_edges_table_with_id_and_weights raw_es) v ≤ ns.length := by
  rw [out_directed, List.countP_eq_length_filter]
  have hsub : (((augment_edges_table_with_id_and_weights raw_es).filter fun e =>
      decide (e.source = some v ∧ e.idxDir = 1)).map fun a => a.target) ⊆
      (ns.map fun r => r.nodeId).map some := by
    intro o ho
    rcases List.mem_map.mp ho with ⟨a, ha, rfl⟩
    have ha' := List.mem_of_mem_filter ha
    obtain ⟨e, he, _, h2, _⟩ :=
      forall₂_mem_left (augment_edges_go_frame _ _ raw_es 0 [] []) a ha'
    obtain ⟨t, ht, hmem⟩ := htgt e he
    rw [h2, ht]
    exact List.mem_map.mpr ⟨t, hmem, rfl⟩
  have hnodup : (((augment_edges_table_with_id_and_weights raw_es).filter fun e =>
      decide (e.source = some v ∧ e.idxDir = 1)).map fun a => a.target).Nodup := by
    rw [List.nodup_iff_count_le_one]
    intro o
    rw [count_map_eq_countP, countP_filter_and]
    have hle : (augment_edges_table_with_id_and_weights raw_es).countP
        (fun a => decide (a.source = some v ∧ a.idxDir = 1) && decide (a.target = o)) ≤
        (augment_edges_table_with_id_and_weights raw_es).countP
        (fun a => decide (dir_key_out a = (some v, o) ∧ a.idxDir = 1)) := by
      apply List.countP_mono_left
      intro a _ hpa
      simp only [Bool.and_eq_true, decide_eq_true_eq] at hpa ⊢
      refine ⟨?_, hpa.1.2⟩
      rw [dir_key_out, hpa.2, hpa.1.1]
    refine le_trans hle ?_
    rw [augment_edges_table_with_id_and_weights, augment_edges_go_countP_dir]
    split_ifs <;> omega
  calc ((augment_edges_table_with_id_and_weights raw_es).filter fun e =>
      decide (e.source = some v ∧ e.idxDir = 1)).length
      = (((augment_edges_table_with_id_and_weights raw_es).filter fun e =>
        decide (e.source = some v ∧ e.idxDir = 1)).map fun a => a.target).length := by
        rw [List.length_map]
    _ ≤ ((ns.map fun r => r.nodeId).map some).length :=
        (List.subperm_of_subset hnodup hsub).length_le
    _ = ns.length := by simp

theorem stage1_sources_eq (ns : List RawNode) (es : List AugEdge) :
    ((((List.insertionSort byNodeId (ns.map (node_counts_row es))).filter fun r =>
      r.isSource).map fun r => r.nodeId).dedup).length =
      nodes_acting_as_source ns es := by
  have hperm : ((((List.insertionSort byNodeId (ns.map (node_counts_row es))).filter fun r =>
      r.isSource).map fun r => r.nodeId).dedup).Perm
      ((((ns.map (node_counts_row es)).filter fun r =>
        r.isSource).map fun r => r.nodeId).dedup) :=
    (((List.perm_insertionSort byNodeId _).filter _).map _).dedup
  rw [hperm.length_eq, nodes_acting_as_source]
  congr 2
  rw [List.map_filter (node_counts_row es) ns, List.map_map,
    List.map_filter (fun r : RawNode => r.nodeId) ns]
  rfl

theorem stage1_targets_eq (ns : List RawNode) (es : List AugEdge) :
    ((((List.insertionSort byNodeId (ns.map (node_counts_row es))).filter fun r =>
      r.isTarget).map fun r => r.nodeId).dedup).length =
      nodes_acting_as_target ns es := by
  have hperm : ((((List.insertionSort byNodeId (ns.map (node_counts_row es))).filter fun r =>
      r.isTarget).map fun r => r.nodeId).dedup).Perm
      ((((ns.map (node_counts_row es)).filter fun r =>
        r.isTarget).map fun r => r.nodeId).dedup) :=
    (((List.perm_insertionSort byNodeId _).filter _).map _).dedup
  rw [hperm.length_eq, nodes_acting_as_target]
  congr 2
  rw [List.map_filter (node_counts_row es) ns, List.map_map,
    List.map_filter (fun r : RawNode => r.nodeId) ns]
  rfl

/-- C8 counterexample: a single node with a single self-loop.  The
self-loop contributes both one in-edge and one out-edge, so the simple
connection count is 2, the node count is 1, and the computed degree
centrality is 2 — outside the interval `[0, 1]` the claim asserts. -/
theorem c8_counterexample :
    self_loop_nodes.map (fun r => r.centrality) = [2] ∧ (1 : Rat) < 2 := by
  constructor
  · simp [self_loop_nodes, augment_nodes_table_with_connection_counts, node_counts_row,
      augment_edges_table_with_id_and_weights, augment_edges_go, in_directed,
      out_directed, in_directed_multi, out_directed_multi, dir_key, undir_key,
      least_opt, greatest_opt, List.insertionSort, List.orderedInsert,
      List.countP, List.countP.go]
  · norm_num

/-- C8 (amended): for every node row of an augmented nodes table whose
edge endpoints all reference node ids of the table, the plain degree
centralities equal the simple (resp. multi) connection count divided by
the total number of nodes; the ratio is nonnegative, and for the simple
variant it is at most 2 — it is *not* confined to `[0, 1]` (a self-loop
already yields 2, since it is counted as one in-edge and one
out-edge).  The bipartite variants divide the out-degree by the number
of nodes that ever act as source when the node is a source, and
otherwise the in-degree by the number of nodes that ever act as
target. -/
theorem c8_degree_centrality (ns : List RawNode) (raw_es : List RawEdge)
    (hsrc : ∀ e ∈ raw_es, ∃ s, e.source = some s ∧ s ∈ ns.map fun r => r.nodeId)
    (htgt : ∀ e ∈ raw_es, ∃ t, e.target = some t ∧ t ∈ ns.map fun r => r.nodeId) :
    ∀ row ∈ augment_nodes_table_with_connection_counts ns
        (augment_edges_table_with_id_and_weights raw_es),
      row.centrality = (row.connections : Rat) / (ns.length : Rat) ∧
      row.centralityMulti = (row.connectionsMulti : Rat) / (ns.length : Rat) ∧
      0 ≤ row.centrality ∧ row.centrality ≤ 2 ∧
      row.bipartite = (if row.isSource
        then (row.outDir : Rat) /
          (nodes_acting_as_source ns (augment_edges_table_with_id_and_weights raw_es) : Rat)
        else (row.inDir : Rat) /
          (nodes_acting_as_target ns (augment_edges_table_with_id_and_weights raw_es) : Rat)) ∧
      row.bipartiteMulti = (if row.isSource
        then (row.outDirMulti : Rat) /
          (nodes_acting_as_source ns (augment_edges_table_with_id_and_weights raw_es) : Rat)
        else (row.inDirMulti : Rat) /
          (nodes_acting_as_target ns (augment_edges_table_with_id_and_weights raw_es) : Rat)) := by
  intro row hrow
  rw [augment_nodes_table_with_connection_counts] at hrow
  rcases List.mem_map.mp hrow with ⟨r, hr, rfl⟩
  have hr' : r ∈ ns.map (node_counts_row (augment_edges_table_with_id_and_weights raw_es)) :=
    (List.perm_insertionSort byNodeId _).subset hr
  rcases List.mem_map.mp hr' with ⟨nd0, hnd0, rfl⟩
  have hnpos : 0 < ns.length := List.length_pos_of_mem hnd0
  refine ⟨rfl, rfl, ?_, ?_, ?_, ?_⟩
  · exact div_nonneg (Nat.cast_nonneg _) (Nat.cast_nonneg _)
  · show ((node_counts_row (augment_edges_table_with_id_and_weights raw_es) nd0).connections :
      Rat) / (ns.length : Rat) ≤ 2
    have hconn : (node_counts_row (augment_edges_table_with_id_and_weights raw_es)
        nd0).connections ≤ 2 * ns.length := by
      have h1 := in_directed_le raw_es ns nd0.nodeId hsrc
      have h2 := out_directed_le raw_es ns nd0.nodeId htgt
      show in_directed _ nd0.nodeId + out_directed _ nd0.nodeId ≤ 2 * ns.length
      omega
    rw [div_le_iff (by exact_mod_cast hnpos)]
    have : ((node_counts_row (augment_edges_table_with_id_and_weights raw_es)
        nd0).connections : Rat) ≤ ((2 * ns.length : Nat) : Rat) := by
      exact_mod_cast hconn
    refine le_trans this ?_
    push_cast
    ring_nf
    exact le_refl _
  · rw [stage1_sources_eq, stage1_targets_eq]
  · rw [stage1_sources_eq, stage1_targets_eq]

/-! ## Claim C5 -/

set_option maxHeartbeats 1000000 in
/-- C5: assembling network data from the edge list
`[(A, B), (B, A), (A, B)]` (for original identifiers `A < B`) with no
nodes table yields exactly two nodes with dense ids assigned in sorted
order of the original values — `A` becomes 0 and `B` becomes 1, each
keeping its original value in the `id` attribute column — and the
resulting metadata reports directed-simple edge count 2, directed-multi
3, undirected-simple 1 and undirected-multi 3. -/
theorem c5_assemble_scenario (A B : Nat) (h : A < B) :
    (assemble_from_edges [(A, B), (B, A), (A, B)]).map
      (fun nd => (nd.nodes.length, nd.nodes.map (fun r => r.nodeId),
        nd.nodes.map (fun r => r.attrs),
        (create_value_metadata nd).directed.number_of_edges,
        (create_value_metadata nd).directed_multi.number_of_edges,
        (create_value_metadata nd).undirected.number_of_edges,
        (create_value_metadata nd).undirected_multi.number_of_edges)) =
      some (2, [0, 1], [[("id", toString A)], [("id", toString B)]], 2, 3, 1, 3) := by
  have hAB : A ≠ B := Nat.ne_of_lt h
  have hBA : B ≠ A := Ne.symm hAB
  have hassemble : assemble_from_edges [(A, B), (B, A), (A, B)] = create_network_data
      [⟨0, toString A, [("id", toString A)]⟩, ⟨1, toString B, [("id", toString B)]⟩]
      [⟨some 0, some 1, []⟩, ⟨some 1, some 0, []⟩, ⟨some 0, some 1, []⟩] := by
    have huniq : unique_sorted ([(A,B),(B,A),(A,B)].map Prod.fst ++
        [(A,B),(B,A),(A,B)].map Prod.snd) = [A, B] := by
      show unique_sorted [A, B, A, B, A, B] = [A, B]
      rw [unique_sorted]
      rw [List.dedup_cons_of_mem (by simp), List.dedup_cons_of_mem (by simp),
        List.dedup_cons_of_mem (by simp), List.dedup_cons_of_mem (by simp),
        List.dedup_cons_of_not_mem (by simp [hAB]),
        List.dedup_cons_of_not_mem (by simp), List.dedup_nil]
      simp [List.insertionSort, List.orderedInsert, h.le]
    rw [assemble_from_edges, huniq]
    simp only [List.map_cons, List.map_nil, List.findIdx?_cons]
    simp only [hAB, hBA, decide_True, decide_False, if_true, if_false,
      decide_eq_true_eq, if_neg hAB, if_neg hBA]
    simp [List.enum, List.enumFrom]
  rw [hassemble]
  exact rfl

/-! ## Claims C1 and C7: evaluation of the failing inputs -/

/-- C1: `from_filtered_nodes` does not restrict the edges to those with
both endpoints in the node list.  On a two-node network with the single
edge `(0, 1)`, filtering by the node list `[0]` keeps the edge (the SQL
filter uses `OR` over the endpoints), maps its out-of-list target to
null, and the subsequent reconstruction raises — the call fails instead
of returning the one-node network with no edges that the claim (and the
function's own docstring) describes. -/
theorem c1_filtered_nodes_raises : two_node_filtered = none := rfl

/-- C7: `CutPointsList.process` raises `NotImplementedError` whenever
the articulation-point list is empty.  On a triangle — a biconnected
graph with no articulation point — the module fails instead of
returning the nodes table with an all-false boolean column. -/
theorem c7_cut_points_raises : triangle_cut_points = none := rfl

/-! ## Witnesses -/

theorem c3_witness :
    compIndex (sortBySizeDesc [[0], [1, 2]]) 2 =
      compIndex (sortBySizeDesc [[1, 2], [0]]) 2 :=
  (c3_component_id_assignment [[0], [1, 2]]).2.2 [[1, 2], [0]] (by decide) (by decide) 2

theorem c4_witness :
    (augment_edges_table_with_id_and_weights
      [⟨some 0, some 1, []⟩, ⟨some 0, some 1, []⟩]).countP
      (fun a => decide (dir_key_out a = (some 0, some 1) ∧ a.idxDir = 1)) = 1 :=
  (c4_duplicate_index_partition
    [⟨some 0, some 1, []⟩, ⟨some 0, some 1, []⟩] (by decide)).1
    (some 0, some 1) (by decide)

theorem c9_witness :
    (augment_edges_table_with_id_and_weights
      [⟨some 0, some 1, [("weight", "3")]⟩]).length =
      ([⟨some 0, some 1, [("weight", "3")]⟩] : List RawEdge).length :=
  (c9_augmentation_frame [⟨some 0, some 1, [("weight", "3")]⟩]
    (by decide) (by decide)).1

theorem c10_witness :
    two_node_network0.nodes.map (fun r => r.nodeId) =
      List.range two_node_network0.nodes.length :=
  (c10_nodes_table_sorted [⟨0, "a", []⟩, ⟨1, "b", []⟩] [⟨some 0, some 1, []⟩]
    two_node_network0 rfl).1

theorem c2_witness :
    parallel_directed_reported triple_edge_network0 =
      triple_edge_network0.edges.countP (fun e => decide (e.idxDir = 2)) :=
  (c2_parallel_edges_reported [⟨0, "a", []⟩, ⟨1, "b", []⟩]
    [⟨some 0, some 1, []⟩, ⟨some 0, some 1, []⟩, ⟨some 0, some 1, []⟩]
    triple_edge_network0 rfl (by decide)).1

theorem c8_witness : 0 ≤ c8_row.centrality ∧ c8_row.centrality ≤ 2 := by
  have h := c8_degree_centrality [⟨0, "a", []⟩, ⟨1, "b", []⟩]
    [⟨some 0, some 1, []⟩] (by decide) (by decide) c8_row (List.get_mem _ _ _)
  exact ⟨h.2.2.1, h.2.2.2.1⟩

theorem c5_witness :
    (assemble_from_edges [(1, 2), (2, 1), (1, 2)]).map
      (fun nd => (nd.nodes.length, nd.nodes.map (fun r => r.nodeId),
        nd.nodes.map (fun r => r.attrs),
        (create_value_metadata nd).directed.number_of_edges,
        (create_value_metadata nd).directed_multi.number_of_edges,
        (create_value_metadata nd).undirected.number_of_edges,
        (create_value_metadata nd).undirected_multi.number_of_edges)) =
      some (2, [0, 1], [[("id", toString 1)], [("id", toString 2)]], 2, 3, 1, 3) :=
  c5_assemble_scenario 1 2 (by decide)

theorem c6_witness :
    c6_edge0.compId = c6_node0.compId ∧ c6_edge0.compId = c6_node1.compId := by
  have h : augment_tables_with_component_ids c6_nodes_example c6_edges_example =
      some (c6_result.1, c6_result.2) := rfl
  have hsrc : c6_edge0.source = some c6_node0.nodeId := by decide
  have htgt : c6_edge0.target = some c6_node1.nodeId := by decide
  exact augment_tables_edge_components c6_nodes_example c6_edges_example
    c6_result.1 c6_result.2 h
    c6_edge0 (List.get_mem _ _ _)
    c6_node0 (List.get_mem _ _ _)
    c6_node1 (List.get_mem _ _ _)
    hsrc htgt
